import Mathlib

set_option maxHeartbeats 1000000

/-!
Shallow embedding of the `spinlock` crate (`src/lib.rs`).

The crate provides `Spinlock<T> { lock: AtomicBool, data: UnsafeCell<T> }`
with a spin-based acquire (`obtain_lock` looping on `try_obtain_lock`, a
`compare_and_swap(false, true, SeqCst)`), a non-blocking `try_lock`, a
RAII guard whose `Drop` stores `false` with `SeqCst`, a constructor `new`,
and a constant initializer `INIT_STATIC_SPINLOCK` for `Spinlock<()>`.

The embedding is sequential state passing over the lock state.  Every
atomic operation on the flag additionally emits an `AtomicEvent`, so that
which atomic instructions run, with which memory ordering, is part of the
observable behaviour.  The possibly non-terminating spin loop of
`obtain_lock` is modelled with explicit fuel: returning `false` means the
loop is still spinning after `fuel` attempts.  A separate small-step
interleaving semantics (`CStep`) models several threads running the
increment-under-guard loop of the crate's doctest, and a ghost-state
transition system (`ApiStep`) tracks the number of live guards across
API calls.
-/

/-- Rust `core::atomic::Ordering` (memory ordering of an atomic operation). -/
inductive MemoryOrdering where
  | Relaxed
  | Acquire
  | Release
  | AcqRel
  | SeqCst
deriving DecidableEq, Repr

/-- Observable atomic operations performed on the lock flag.
`cas expected newVal ord old` is `compare_and_swap(expected, newVal, ord)`
returning the previous flag value `old`; `store v ord` is `store(v, ord)`. -/
inductive AtomicEvent where
  | cas (expected newVal : Bool) (ord : MemoryOrdering) (old : Bool)
  | store (v : Bool) (ord : MemoryOrdering)
deriving DecidableEq, Repr

/-- Whether an atomic event writes `false` into the flag: a CAS that takes
effect (current value matched `expected`) with new value `false`, or a
store of `false`. -/
def AtomicEvent.clearsFlag : AtomicEvent → Bool
  | .cas expected newVal _ old => (newVal == false) && (old == expected)
  | .store v _ => v == false

/-- Rust `Spinlock<T> { lock: AtomicBool, data: UnsafeCell<T> }`.
The Rust field `lock` is called `flag` here because the method
`Spinlock::lock` also needs the name `Spinlock.lock` in Lean. -/
structure Spinlock (T : Type) where
  flag : Bool
  data : T
deriving DecidableEq, Repr

/-- Rust `SpinlockGuard<'a, T> { lock: &'a AtomicBool, data: &'a mut T }`.
The flag reference points back at the owning lock (represented by passing
the lock state to `SpinlockGuard.drop`); the data reference is represented
by the payload value visible through the guard (`Deref`/`DerefMut` both
expose `self.data`). -/
structure SpinlockGuard (T : Type) where
  data : T
deriving DecidableEq, Repr

/-- Rust `self.lock.compare_and_swap(old, new, ord)`: writes `newVal` iff the
current flag equals `expected`, and returns the previous flag value. -/
def Spinlock.compare_and_swap {T : Type} (s : Spinlock T) (expected newVal : Bool)
    (ord : MemoryOrdering) : Bool × Spinlock T × List AtomicEvent :=
  (s.flag,
   (if s.flag = expected then { s with flag := newVal } else s),
   [AtomicEvent.cas expected newVal ord s.flag])

/-- Rust `Spinlock::try_obtain_lock`:
`self.lock.compare_and_swap(false, true, Ordering::SeqCst) == false`. -/
def Spinlock.try_obtain_lock {T : Type} (s : Spinlock T) :
    Bool × Spinlock T × List AtomicEvent :=
  let r := s.compare_and_swap false true MemoryOrdering.SeqCst
  (r.1 == false, r.2.1, r.2.2)

/-- Rust `Spinlock::obtain_lock`: `while !self.try_obtain_lock() { }`.
The loop may never terminate, so it takes explicit fuel; the `Bool`
result tells whether the lock was obtained within `fuel` attempts. -/
def Spinlock.obtain_lock {T : Type} : Nat → Spinlock T → Bool × Spinlock T × List AtomicEvent
  | 0, s => (false, s, [])
  | fuel + 1, s =>
    let r := s.try_obtain_lock
    if r.1 then (true, r.2.1, r.2.2)
    else
      let r2 := Spinlock.obtain_lock fuel r.2.1
      (r2.1, r2.2.1, r.2.2 ++ r2.2.2)

/-- Rust `Spinlock::lock`: `self.obtain_lock(); SpinlockGuard { lock: &self.lock,
data: ... }`.  A `none` result means the spin loop is still running after
`fuel` attempts (the source has no failure path at all). -/
def Spinlock.lock {T : Type} (fuel : Nat) (s : Spinlock T) :
    Option (SpinlockGuard T) × Spinlock T × List AtomicEvent :=
  let r := Spinlock.obtain_lock fuel s
  if r.1 then (some ⟨r.2.1.data⟩, r.2.1, r.2.2) else (none, r.2.1, r.2.2)

/-- Rust `Spinlock::try_lock`: one `try_obtain_lock` attempt; `Some` guard on
success, `None` on failure. -/
def Spinlock.try_lock {T : Type} (s : Spinlock T) :
    Option (SpinlockGuard T) × Spinlock T × List AtomicEvent :=
  let r := s.try_obtain_lock
  if r.1 then (some ⟨r.2.1.data⟩, r.2.1, r.2.2) else (none, r.2.1, r.2.2)

/-- Rust `impl Drop for SpinlockGuard`: `self.lock.store(false, Ordering::SeqCst)`.
The guard's flag reference points at the lock whose state `s` is passed in. -/
def SpinlockGuard.drop {T : Type} (_g : SpinlockGuard T) (s : Spinlock T) :
    Spinlock T × List AtomicEvent :=
  ({ s with flag := false }, [AtomicEvent.store false MemoryOrdering.SeqCst])

/-- Rust `Spinlock::new(user_data)`: flag `INIT_ATOMIC_BOOL` (i.e. `false`),
data `user_data`. -/
def Spinlock.new {T : Type} (user_data : T) : Spinlock T :=
  { flag := false, data := user_data }

/-- Rust `INIT_STATIC_SPINLOCK: StaticSpinlock`: flag `INIT_ATOMIC_BOOL`,
data `()`. -/
def INIT_STATIC_SPINLOCK : Spinlock Unit :=
  { flag := false, data := () }

/-- Ghost state for the API-level transition system: the lock state plus the
number of live guards (a guard is live from a successful acquisition until
its `drop`). -/
structure ApiState (T : Type) where
  spin : Spinlock T
  guards : Nat

/-- One API call on the lock: a `lock` call that acquired within its fuel,
a `lock` call still spinning, a `try_lock` that returned `Some`, a
`try_lock` that returned `None`, or the `Drop` of one live guard.  Guards
are created exactly by the successful acquisitions and consumed exactly by
`dropGuard` (Rust move semantics: each guard is dropped once). -/
inductive ApiStep {T : Type} : ApiState T → ApiState T → Prop where
  | lockAcquired (s : ApiState T) (fuel : Nat) (g : SpinlockGuard T)
      (s' : Spinlock T) (es : List AtomicEvent) :
      Spinlock.lock fuel s.spin = (some g, s', es) →
      ApiStep s ⟨s', s.guards + 1⟩
  | lockSpinning (s : ApiState T) (fuel : Nat)
      (s' : Spinlock T) (es : List AtomicEvent) :
      Spinlock.lock fuel s.spin = (none, s', es) →
      ApiStep s ⟨s', s.guards⟩
  | tryLockAcquired (s : ApiState T) (g : SpinlockGuard T)
      (s' : Spinlock T) (es : List AtomicEvent) :
      Spinlock.try_lock s.spin = (some g, s', es) →
      ApiStep s ⟨s', s.guards + 1⟩
  | tryLockFailed (s : ApiState T)
      (s' : Spinlock T) (es : List AtomicEvent) :
      Spinlock.try_lock s.spin = (none, s', es) →
      ApiStep s ⟨s', s.guards⟩
  | dropGuard (s : ApiState T) (g : SpinlockGuard T) :
      1 ≤ s.guards →
      ApiStep s ⟨(SpinlockGuard.drop g s.spin).1, s.guards - 1⟩

/-- Local state of one thread running the crate's doctest loop
(`let mut guard = my_lock.lock(); *guard += 1; drop(guard);` repeated):
`ready rem` — outside the critical section, `rem` increments left;
`locked rem` — holds the lock, has not yet read the payload;
`writing v rem` — holds the lock, read payload value `v`, write pending;
`releasing rem` — increment done, the guard's `Drop` store pending. -/
inductive TState where
  | ready (rem : Nat)
  | locked (rem : Nat)
  | writing (v : Nat) (rem : Nat)
  | releasing (rem : Nat)
deriving DecidableEq, Repr

/-- Number of increments this thread still has to perform (its `writing`
read-modify-write counts as unperformed until the write lands). -/
def TState.pending : TState → Nat
  | .ready r => r
  | .locked r => r
  | .writing _ r => r
  | .releasing r => r

/-- Whether the thread currently holds the lock. -/
def TState.holds : TState → Bool
  | .ready _ => false
  | .locked _ => true
  | .writing _ _ => true
  | .releasing _ => true

/-- Global state of `n` threads sharing one `Spinlock<usize>`: the atomic
flag, the protected payload, and each thread's local state. -/
structure CState (n : Nat) where
  flag : Bool
  payload : Nat
  ts : Fin n → TState

/-- Interleaving small-step semantics.  `acquire` is a successful
`try_obtain_lock` CAS (`false → true`); `spinFail` is a failed CAS attempt
of the `obtain_lock` loop (no state change); `readPayload`/`writePayload`
split the non-atomic `*guard += 1` into its read and its write; `release`
is the guard's `Drop` storing `false`.  The scheduler is adversarial: any
thread able to step may step. -/
inductive CStep {n : Nat} : CState n → CState n → Prop where
  | acquire (s : CState n) (i : Fin n) (r : Nat) :
      s.ts i = TState.ready (r + 1) → s.flag = false →
      CStep s ⟨true, s.payload, Function.update s.ts i (TState.locked (r + 1))⟩
  | spinFail (s : CState n) (i : Fin n) (r : Nat) :
      s.ts i = TState.ready (r + 1) → s.flag = true →
      CStep s s
  | readPayload (s : CState n) (i : Fin n) (r : Nat) :
      s.ts i = TState.locked r →
      CStep s ⟨s.flag, s.payload, Function.update s.ts i (TState.writing s.payload r)⟩
  | writePayload (s : CState n) (i : Fin n) (v r : Nat) :
      s.ts i = TState.writing v (r + 1) →
      CStep s ⟨s.flag, v + 1, Function.update s.ts i (TState.releasing r)⟩
  | release (s : CState n) (i : Fin n) (r : Nat) :
      s.ts i = TState.releasing r →
      CStep s ⟨false, s.payload, Function.update s.ts i (TState.ready r)⟩

/-- Initial state: lock built by `Spinlock::new(0)` (flag `false`,
payload `0`), thread `i` intending to perform `k i` increments. -/
def CInit (n : Nat) (k : Fin n → Nat) : CState n :=
  ⟨false, 0, fun i => TState.ready (k i)⟩

/-- Inductive invariant for the interleaving semantics: the payload plus
all still-pending increments equals the intended total; at most one thread
holds the lock; a cleared flag means nobody holds the lock; and a thread
that has read the payload for its increment read the current value. -/
def CInv {n : Nat} (k : Fin n → Nat) (s : CState n) : Prop :=
  (s.payload + ∑ j, (s.ts j).pending = ∑ j, k j)
  ∧ (∀ i j : Fin n, (s.ts i).holds = true → (s.ts j).holds = true → i = j)
  ∧ (s.flag = false → ∀ i, (s.ts i).holds = false)
  ∧ (∀ i v r, s.ts i = TState.writing v r → v = s.payload)

-- Helper lemmas about the sequential operations.

lemma try_obtain_lock_eq {T : Type} (s : Spinlock T) :
    Spinlock.try_obtain_lock s =
      if s.flag = false then
        (true, { s with flag := true }, [AtomicEvent.cas false true MemoryOrdering.SeqCst false])
      else
        (false, s, [AtomicEvent.cas false true MemoryOrdering.SeqCst true]) := by
  cases hf : s.flag <;>
    simp [Spinlock.try_obtain_lock, Spinlock.compare_and_swap, hf]

lemma obtain_lock_locked {T : Type} (fuel : Nat) (s : Spinlock T) (h : s.flag = true) :
    Spinlock.obtain_lock fuel s =
      (false, s, List.replicate fuel (AtomicEvent.cas false true MemoryOrdering.SeqCst true)) := by
  induction fuel with
  | zero => simp [Spinlock.obtain_lock]
  | succ n ih =>
    simp [Spinlock.obtain_lock, try_obtain_lock_eq, h, ih, List.replicate_succ]

lemma obtain_lock_free {T : Type} (fuel : Nat) (s : Spinlock T) (h : s.flag = false) :
    Spinlock.obtain_lock (fuel + 1) s =
      (true, { s with flag := true },
        [AtomicEvent.cas false true MemoryOrdering.SeqCst false]) := by
  simp [Spinlock.obtain_lock, try_obtain_lock_eq, h]

lemma obtain_lock_events {T : Type} (fuel : Nat) (s : Spinlock T) :
    ∀ e ∈ (Spinlock.obtain_lock fuel s).2.2,
      ∃ old, e = AtomicEvent.cas false true MemoryOrdering.SeqCst old := by
  induction fuel generalizing s with
  | zero => simp [Spinlock.obtain_lock]
  | succ n ih =>
    intro e he
    cases hf : s.flag with
    | false =>
      rw [obtain_lock_free n s hf] at he
      simp at he
      exact ⟨false, he⟩
    | true =>
      rw [obtain_lock_locked (n + 1) s hf] at he
      simp at he
      exact ⟨true, he⟩

lemma lock_events {T : Type} (fuel : Nat) (s : Spinlock T) :
    ∀ e ∈ (Spinlock.lock fuel s).2.2,
      ∃ old, e = AtomicEvent.cas false true MemoryOrdering.SeqCst old := by
  intro e he
  apply obtain_lock_events fuel s
  unfold Spinlock.lock at he
  by_cases h1 : (Spinlock.obtain_lock fuel s).1 <;> simp [h1] at he <;> exact he

lemma try_lock_eq {T : Type} (s : Spinlock T) :
    Spinlock.try_lock s =
      if s.flag = false then
        (some ⟨s.data⟩, { s with flag := true },
          [AtomicEvent.cas false true MemoryOrdering.SeqCst false])
      else
        (none, s, [AtomicEvent.cas false true MemoryOrdering.SeqCst true]) := by
  cases hf : s.flag <;> simp [Spinlock.try_lock, try_obtain_lock_eq, hf]

lemma lock_some_cases {T : Type} (fuel : Nat) (s : Spinlock T) (g : SpinlockGuard T)
    (s' : Spinlock T) (es : List AtomicEvent)
    (h : Spinlock.lock fuel s = (some g, s', es)) :
    s.flag = false ∧ s' = { s with flag := true } := by
  cases hf : s.flag with
  | false =>
    refine ⟨rfl, ?_⟩
    cases fuel with
    | zero => simp [Spinlock.lock, Spinlock.obtain_lock] at h
    | succ m =>
      rw [Spinlock.lock, obtain_lock_free m s hf] at h
      simp at h
      exact h.2.1.symm
  | true =>
    rw [Spinlock.lock, obtain_lock_locked fuel s hf] at h
    simp at h

lemma lock_none_state {T : Type} (fuel : Nat) (s : Spinlock T)
    (s' : Spinlock T) (es : List AtomicEvent)
    (h : Spinlock.lock fuel s = (none, s', es)) : s' = s := by
  cases hf : s.flag with
  | false =>
    cases fuel with
    | zero =>
      simp [Spinlock.lock, Spinlock.obtain_lock] at h
      exact h.1.symm
    | succ m =>
      rw [Spinlock.lock, obtain_lock_free m s hf] at h
      simp at h
  | true =>
    rw [Spinlock.lock, obtain_lock_locked fuel s hf] at h
    simp at h
    exact h.1.symm

lemma try_lock_some_cases {T : Type} (s : Spinlock T) (g : SpinlockGuard T)
    (s' : Spinlock T) (es : List AtomicEvent)
    (h : Spinlock.try_lock s = (some g, s', es)) :
    s.flag = false ∧ s' = { s with flag := true } := by
  cases hf : s.flag with
  | false =>
    rw [try_lock_eq, if_pos hf] at h
    simp at h
    exact ⟨rfl, h.2.1.symm⟩
  | true =>
    rw [try_lock_eq, if_neg (by simp [hf])] at h
    simp at h

lemma try_lock_none_state {T : Type} (s : Spinlock T)
    (s' : Spinlock T) (es : List AtomicEvent)
    (h : Spinlock.try_lock s = (none, s', es)) : s' = s := by
  cases hf : s.flag with
  | false =>
    rw [try_lock_eq, if_pos hf] at h
    simp at h
  | true =>
    rw [try_lock_eq, if_neg (by simp [hf])] at h
    simp at h
    exact h.1.symm

-- Helper lemmas for the interleaving semantics.

lemma sum_pending_update {n : Nat} (ts : Fin n → TState) (i : Fin n) (b : TState) :
    (∑ j, (Function.update ts i b j).pending) + (ts i).pending
      = (∑ j, (ts j).pending) + b.pending := by
  rw [show (∑ j, (Function.update ts i b j).pending)
        = ∑ j, (fun x => (Function.update ts i b x).pending) j from rfl]
  rw [show (fun x => (Function.update ts i b x).pending)
        = Function.update (fun x => (ts x).pending) i b.pending from ?_]
  · rw [Finset.sum_update_of_mem (Finset.mem_univ i), ← Finset.erase_eq,
      ← Finset.add_sum_erase _ _ (Finset.mem_univ i)]
    ring
  · funext x
    by_cases hx : x = i
    · subst hx; simp
    · simp [Function.update, hx]

lemma cinv_init {n : Nat} (k : Fin n → Nat) : CInv k (CInit n k) := by
  refine ⟨by simp [CInit, TState.pending], ?_, ?_, ?_⟩
  · intro i j hi _
    simp [CInit, TState.holds] at hi
  · intro _ i
    simp [CInit, TState.holds]
  · intro i v r h
    simp [CInit] at h

lemma cinv_step {n : Nat} {k : Fin n → Nat} {s s' : CState n}
    (hst : CStep s s') (hinv : CInv k s) : CInv k s' := by
  obtain ⟨h1, h2, h3, h4⟩ := hinv
  cases hst with
  | acquire i r hts hflag =>
    refine ⟨?_, ?_, ?_, ?_⟩
    · have hsum := sum_pending_update s.ts i (TState.locked (r + 1))
      rw [hts] at hsum
      have hsum' : (∑ j, (Function.update s.ts i (TState.locked (r + 1)) j).pending) + (r + 1)
          = (∑ j, (s.ts j).pending) + (r + 1) := hsum
      show s.payload + ∑ j, (Function.update s.ts i (TState.locked (r + 1)) j).pending
          = ∑ j, k j
      omega
    · intro a b ha hb
      dsimp only at ha hb
      by_cases hai : a = i
      · by_cases hbi : b = i
        · rw [hai, hbi]
        · rw [Function.update_noteq hbi] at hb
          exact absurd hb (by simp [h3 hflag b])
      · rw [Function.update_noteq hai] at ha
        exact absurd ha (by simp [h3 hflag a])
    · intro hf
      simp at hf
    · intro a v' r' ha
      dsimp only at ha ⊢
      by_cases hai : a = i
      · subst hai
        rw [Function.update_same] at ha
        cases ha
      · rw [Function.update_noteq hai] at ha
        exact h4 a v' r' ha
  | spinFail i r hts hflag =>
    exact ⟨h1, h2, h3, h4⟩
  | readPayload i r hts =>
    have hihold : (s.ts i).holds = true := by rw [hts]; rfl
    refine ⟨?_, ?_, ?_, ?_⟩
    · have hsum := sum_pending_update s.ts i (TState.writing s.payload r)
      rw [hts] at hsum
      have hsum' : (∑ j, (Function.update s.ts i (TState.writing s.payload r) j).pending) + r
          = (∑ j, (s.ts j).pending) + r := hsum
      show s.payload + ∑ j, (Function.update s.ts i (TState.writing s.payload r) j).pending
          = ∑ j, k j
      omega
    · intro a b ha hb
      dsimp only at ha hb
      by_cases hai : a = i
      · by_cases hbi : b = i
        · rw [hai, hbi]
        · rw [Function.update_noteq hbi] at hb
          exact absurd (h2 b i hb hihold) hbi
      · rw [Function.update_noteq hai] at ha
        exact absurd (h2 a i ha hihold) hai
    · intro hf
      dsimp only at hf
      exact absurd (h3 hf i) (by simp [hihold])
    · intro a v' r' ha
      dsimp only at ha ⊢
      by_cases hai : a = i
      · subst hai
        rw [Function.update_same] at ha
        cases ha
        rfl
      · rw [Function.update_noteq hai] at ha
        exact absurd (h2 a i (by rw [ha]; rfl) hihold) hai
  | writePayload i v r hts =>
    have hihold : (s.ts i).holds = true := by rw [hts]; rfl
    have hv : v = s.payload := h4 i v (r + 1) hts
    refine ⟨?_, ?_, ?_, ?_⟩
    · have hsum := sum_pending_update s.ts i (TState.releasing r)
      rw [hts] at hsum
      have hsum' : (∑ j, (Function.update s.ts i (TState.releasing r) j).pending) + (r + 1)
          = (∑ j, (s.ts j).pending) + r := hsum
      have hv' : v = s.payload := hv
      show v + 1 + ∑ j, (Function.update s.ts i (TState.releasing r) j).pending
          = ∑ j, k j
      omega
    · intro a b ha hb
      dsimp only at ha hb
      by_cases hai : a = i
      · by_cases hbi : b = i
        · rw [hai, hbi]
        · rw [Function.update_noteq hbi] at hb
          exact absurd (h2 b i hb hihold) hbi
      · rw [Function.update_noteq hai] at ha
        exact absurd (h2 a i ha hihold) hai
    · intro hf
      dsimp only at hf
      exact absurd (h3 hf i) (by simp [hihold])
    · intro a v' r' ha
      dsimp only at ha ⊢
      by_cases hai : a = i
      · subst hai
        rw [Function.update_same] at ha
        cases ha
      · rw [Function.update_noteq hai] at ha
        exact absurd (h2 a i (by rw [ha]; rfl) hihold) hai
  | release i r hts =>
    have hihold : (s.ts i).holds = true := by rw [hts]; rfl
    have hnohold : ∀ a : Fin n, (Function.update s.ts i (TState.ready r) a).holds = false := by
      intro a
      by_cases hai : a = i
      · subst hai
        rw [Function.update_same]
        rfl
      · rw [Function.update_noteq hai]
        cases hh : (s.ts a).holds
        · rfl
        · exact absurd (h2 a i hh hihold) hai
    refine ⟨?_, ?_, ?_, ?_⟩
    · have hsum := sum_pending_update s.ts i (TState.ready r)
      rw [hts] at hsum
      have hsum' : (∑ j, (Function.update s.ts i (TState.ready r) j).pending) + r
          = (∑ j, (s.ts j).pending) + r := hsum
      show s.payload + ∑ j, (Function.update s.ts i (TState.ready r) j).pending
          = ∑ j, k j
      omega
    · intro a b ha hb
      dsimp only at ha hb
      exact absurd ha (by simp [hnohold a])
    · intro _ a
      exact hnohold a
    · intro a v' r' ha
      dsimp only at ha ⊢
      by_cases hai : a = i
      · subst hai
        rw [Function.update_same] at ha
        cases ha
      · rw [Function.update_noteq hai] at ha
        exact h4 a v' r' ha

lemma cinv_reach {n : Nat} {k : Fin n → Nat} {s : CState n}
    (h : Relation.ReflTransGen CStep (CInit n k) s) : CInv k s := by
  induction h with
  | refl => exact cinv_init k
  | tail hr hstep ih => exact cinv_step hstep ih

-- Claim theorems.

/-- Claim C1 (mutual exclusion, no lost updates): for any number `n` of
threads, each incrementing the payload `k i` times, every increment done
entirely under the thread's own guard (CAS-acquire, read, write, release),
any reachable state in which all threads have finished has payload exactly
`∑ i, k i`.  This covers every `n` (in particular 1 to 1000 and beyond)
and every per-thread increment count. -/
theorem spinlock_mutual_exclusion {n : Nat} (k : Fin n → Nat) (s : CState n)
    (hreach : Relation.ReflTransGen CStep (CInit n k) s)
    (hdone : ∀ i, s.ts i = TState.ready 0) :
    s.payload = ∑ i, k i := by
  obtain ⟨h1, _, _, _⟩ := cinv_reach hreach
  have hz : ∑ j, (s.ts j).pending = 0 :=
    Finset.sum_eq_zero (fun j _ => by rw [hdone j]; rfl)
  omega

/-- Witness for C1: one thread performing one increment; the concrete
four-step execution (acquire, read, write, release) ends with payload 1. -/
theorem spinlock_mutual_exclusion_witness :
    (⟨false, 1, Function.update (Function.update (Function.update (Function.update
        (fun i : Fin 1 => TState.ready ((fun _ : Fin 1 => 1) i)) 0 (TState.locked 1))
        0 (TState.writing 0 1)) 0 (TState.releasing 0)) 0 (TState.ready 0)⟩ : CState 1).payload
      = ∑ i : Fin 1, (fun _ : Fin 1 => 1) i := by
  apply spinlock_mutual_exclusion (fun _ : Fin 1 => 1)
  · exact Relation.ReflTransGen.head (CStep.acquire (CInit 1 (fun _ => 1)) 0 0 rfl rfl)
      (Relation.ReflTransGen.head (CStep.readPayload _ 0 1 (by simp [CInit, Function.update]))
        (Relation.ReflTransGen.head (CStep.writePayload _ 0 0 0 (by simp [CInit, Function.update]))
          (Relation.ReflTransGen.head (CStep.release _ 0 0 (by simp [CInit, Function.update]))
            Relation.ReflTransGen.refl)))
  · intro i
    fin_cases i
    simp [Function.update]

/-- Claim C2: every atomic operation issued by `lock` is the
compare-and-swap `false → true` with `SeqCst` ordering (on the success and
the failure path alike); a failed attempt changes nothing and the loop
retries immediately (the unrolling equation); on a free lock the first
attempt succeeds and returns the guard over the payload with the flag set;
and whenever the loop terminates the result is a guard — there is no error
return path. -/
theorem lock_spec {T : Type} (s : Spinlock T) (fuel : Nat) :
    (∀ e ∈ (Spinlock.lock fuel s).2.2,
        ∃ old, e = AtomicEvent.cas false true MemoryOrdering.SeqCst old)
    ∧ (s.flag = true → Spinlock.obtain_lock (fuel + 1) s =
        ((Spinlock.obtain_lock fuel s).1, (Spinlock.obtain_lock fuel s).2.1,
          AtomicEvent.cas false true MemoryOrdering.SeqCst true ::
            (Spinlock.obtain_lock fuel s).2.2))
    ∧ (s.flag = false → Spinlock.lock (fuel + 1) s =
        (some ⟨s.data⟩, { s with flag := true },
          [AtomicEvent.cas false true MemoryOrdering.SeqCst false]))
    ∧ ((Spinlock.obtain_lock fuel s).1 = true →
        (Spinlock.lock fuel s).1 = some ⟨(Spinlock.lock fuel s).2.1.data⟩) := by
  refine ⟨lock_events fuel s, ?_, ?_, ?_⟩
  · intro h
    conv_lhs => rw [Spinlock.obtain_lock]
    simp [try_obtain_lock_eq, h]
  · intro h
    simp [Spinlock.lock, obtain_lock_free fuel s h]
  · intro h
    simp [Spinlock.lock, h]

/-- Witness for C2 at concrete inputs: the retry equation on a held lock,
and the immediate success on a free lock. -/
theorem lock_spec_witness :
    Spinlock.obtain_lock 3 (⟨true, (0 : Nat)⟩ : Spinlock Nat) =
      ((Spinlock.obtain_lock 2 (⟨true, (0 : Nat)⟩ : Spinlock Nat)).1,
        (Spinlock.obtain_lock 2 (⟨true, (0 : Nat)⟩ : Spinlock Nat)).2.1,
        AtomicEvent.cas false true MemoryOrdering.SeqCst true ::
          (Spinlock.obtain_lock 2 (⟨true, (0 : Nat)⟩ : Spinlock Nat)).2.2)
    ∧ Spinlock.lock 1 (⟨false, (3 : Nat)⟩ : Spinlock Nat) =
        (some ⟨3⟩, ⟨true, 3⟩, [AtomicEvent.cas false true MemoryOrdering.SeqCst false]) :=
  ⟨(lock_spec ⟨true, 0⟩ 2).2.1 rfl, (lock_spec ⟨false, 3⟩ 0).2.2.1 rfl⟩

/-- Claim C3: `try_lock` performs the flag transition attempt exactly once
(its event trace is one CAS) and does not loop: on a free lock it sets the
flag and returns `Some` guard; on a held lock it returns `None` at once,
leaving the state unchanged. -/
theorem try_lock_spec {T : Type} (s : Spinlock T) :
    Spinlock.try_lock s =
      if s.flag = false then
        (some ⟨s.data⟩, { s with flag := true },
          [AtomicEvent.cas false true MemoryOrdering.SeqCst false])
      else
        (none, s, [AtomicEvent.cas false true MemoryOrdering.SeqCst true]) :=
  try_lock_eq s

/-- Claim C4: dropping a guard unconditionally performs exactly one atomic
operation — the `SeqCst` store of `false` — leaves the payload unchanged,
and is the only API operation whose event can clear the flag: the store of
`false` clears, while every event `lock` or `try_lock` emits is a
`false → true` CAS, which never writes `false`. -/
theorem guard_drop_spec {T : Type} (g : SpinlockGuard T) (s : Spinlock T) (fuel : Nat) :
    SpinlockGuard.drop g s =
      ({ s with flag := false }, [AtomicEvent.store false MemoryOrdering.SeqCst])
    ∧ (SpinlockGuard.drop g s).1.data = s.data
    ∧ AtomicEvent.clearsFlag (AtomicEvent.store false MemoryOrdering.SeqCst) = true
    ∧ (∀ e ∈ (Spinlock.lock fuel s).2.2, AtomicEvent.clearsFlag e = false)
    ∧ (∀ e ∈ (Spinlock.try_lock s).2.2, AtomicEvent.clearsFlag e = false) := by
  refine ⟨rfl, rfl, rfl, ?_, ?_⟩
  · intro e he
    obtain ⟨old, rfl⟩ := lock_events fuel s e he
    rfl
  · intro e he
    rw [try_lock_eq s] at he
    cases hf : s.flag <;> simp [hf] at he <;> subst he <;> rfl

/-- Witness for C4: the failed-CAS event emitted on a held lock does not
clear the flag. -/
theorem guard_drop_spec_witness :
    AtomicEvent.clearsFlag (AtomicEvent.cas false true MemoryOrdering.SeqCst true) = false :=
  (guard_drop_spec (⟨0⟩ : SpinlockGuard Nat) ⟨true, 0⟩ 1).2.2.2.2
    (AtomicEvent.cas false true MemoryOrdering.SeqCst true) (by decide)

/-- Claim C5: in every state reachable from `Spinlock::new` by API calls
(`lock`, `try_lock`, guard `Drop`), at most one guard is live, and a guard
is live exactly when the flag is `true`; guards are created only by the
successful `false → true` transitions and the `true → false` transition
happens only at a guard's destruction (the `ApiStep` relation). -/
theorem guard_flag_invariant {T : Type} (v : T) (s : ApiState T)
    (h : Relation.ReflTransGen ApiStep ⟨Spinlock.new v, 0⟩ s) :
    s.guards ≤ 1 ∧ (s.spin.flag = true ↔ s.guards = 1) := by
  induction h with
  | refl => exact ⟨by simp, by simp [Spinlock.new]⟩
  | @tail b c hr hstep ih =>
    obtain ⟨ih1, ih2⟩ := ih
    cases hstep with
    | lockAcquired fuel g s' es heq =>
      obtain ⟨hflag, hs'⟩ := lock_some_cases fuel b.spin g s' es heq
      have hg : b.guards = 0 := by
        rcases Nat.lt_or_ge b.guards 1 with h1 | h1
        · omega
        · exact absurd (ih2.mpr (by omega)) (by simp [hflag])
      subst hs'
      simp [hg]
    | lockSpinning fuel s' es heq =>
      rw [lock_none_state fuel b.spin s' es heq]
      exact ⟨ih1, ih2⟩
    | tryLockAcquired g s' es heq =>
      obtain ⟨hflag, hs'⟩ := try_lock_some_cases b.spin g s' es heq
      have hg : b.guards = 0 := by
        rcases Nat.lt_or_ge b.guards 1 with h1 | h1
        · omega
        · exact absurd (ih2.mpr (by omega)) (by simp [hflag])
      subst hs'
      simp [hg]
    | tryLockFailed s' es heq =>
      rw [try_lock_none_state b.spin s' es heq]
      exact ⟨ih1, ih2⟩
    | dropGuard g hge =>
      have hg : b.guards = 1 := by omega
      simp [SpinlockGuard.drop, hg]

/-- Witness for C5: after `new 0` followed by one successful `try_lock`,
the state has one live guard and the flag is set. -/
theorem guard_flag_invariant_witness :
    (⟨⟨true, 0⟩, 1⟩ : ApiState Nat).guards ≤ 1 ∧
      ((⟨⟨true, 0⟩, 1⟩ : ApiState Nat).spin.flag = true ↔
        (⟨⟨true, 0⟩, 1⟩ : ApiState Nat).guards = 1) :=
  guard_flag_invariant 0 ⟨⟨true, 0⟩, 1⟩
    (Relation.ReflTransGen.tail Relation.ReflTransGen.refl
      (ApiStep.tryLockAcquired ⟨Spinlock.new 0, 0⟩ ⟨0⟩ ⟨true, 0⟩
        [AtomicEvent.cas false true MemoryOrdering.SeqCst false] rfl))

/-- Claim C6: lock built with payload 0; `lock` yields guard `g1` and sets
the flag; while the flag is `true` every `try_lock` (for any payload value)
returns `None` and leaves the whole state unchanged, so arbitrarily many
repeated calls all fail; after `g1` is dropped the flag is `false` and the
next `try_lock` returns a guard through which the payload reads 0. -/
theorem try_lock_scenario :
    Spinlock.lock 1 (Spinlock.new (0 : Nat)) =
      (some ⟨0⟩, ⟨true, 0⟩, [AtomicEvent.cas false true MemoryOrdering.SeqCst false])
    ∧ (∀ v : Nat, Spinlock.try_lock (⟨true, v⟩ : Spinlock Nat) =
        (none, ⟨true, v⟩, [AtomicEvent.cas false true MemoryOrdering.SeqCst true]))
    ∧ (SpinlockGuard.drop (⟨0⟩ : SpinlockGuard Nat) ⟨true, 0⟩).1 = ⟨false, 0⟩
    ∧ Spinlock.try_lock (⟨false, 0⟩ : Spinlock Nat) =
        (some ⟨0⟩, ⟨true, 0⟩, [AtomicEvent.cas false true MemoryOrdering.SeqCst false])
    ∧ ((⟨0⟩ : SpinlockGuard Nat)).data = 0 :=
  ⟨rfl, fun _ => rfl, rfl, rfl, rfl⟩

/-- Claim C7: the constant initializer has flag `false` and unit payload,
is equal to `Spinlock.new ()`, and therefore behaves identically under
`lock`, `try_lock` and guard `drop`. -/
theorem static_init_spec :
    INIT_STATIC_SPINLOCK.flag = false ∧ INIT_STATIC_SPINLOCK.data = () ∧
    INIT_STATIC_SPINLOCK = Spinlock.new () ∧
    (∀ fuel, Spinlock.lock fuel INIT_STATIC_SPINLOCK = Spinlock.lock fuel (Spinlock.new ())) ∧
    Spinlock.try_lock INIT_STATIC_SPINLOCK = Spinlock.try_lock (Spinlock.new ()) ∧
    (∀ g : SpinlockGuard Unit,
      SpinlockGuard.drop g INIT_STATIC_SPINLOCK = SpinlockGuard.drop g (Spinlock.new ())) :=
  ⟨rfl, rfl, rfl, fun _ => rfl, rfl, fun _ => rfl⟩

/-- Claim C8: on a lock whose flag is `true`, `lock` never acquires: for
every fuel bound the loop has not returned, the state is unchanged, and
the trace is exactly `fuel` failed CAS attempts — the CAS `false → true`
can never succeed while the flag stays `true`, so the loop spins forever. -/
theorem lock_held_spins_forever {T : Type} (fuel : Nat) (s : Spinlock T)
    (h : s.flag = true) :
    (Spinlock.lock fuel s).1 = none ∧ (Spinlock.lock fuel s).2.1 = s ∧
      (Spinlock.lock fuel s).2.2 =
        List.replicate fuel (AtomicEvent.cas false true MemoryOrdering.SeqCst true) := by
  simp [Spinlock.lock, obtain_lock_locked fuel s h]

/-- Witness for C8: a held lock is still not acquired after 1000 attempts. -/
theorem lock_held_spins_forever_witness :
    (Spinlock.lock 1000 (⟨true, (0 : Nat)⟩ : Spinlock Nat)).1 = none ∧
      (Spinlock.lock 1000 (⟨true, (0 : Nat)⟩ : Spinlock Nat)).2.1 = ⟨true, 0⟩ ∧
      (Spinlock.lock 1000 (⟨true, (0 : Nat)⟩ : Spinlock Nat)).2.2 =
        List.replicate 1000 (AtomicEvent.cas false true MemoryOrdering.SeqCst true) :=
  lock_held_spins_forever 1000 ⟨true, 0⟩ rfl

/-- Claim C9: `Spinlock.new` is total (no error path), stores exactly the
supplied payload and sets the flag to unlocked. -/
theorem new_spec {T : Type} (initial_value : T) :
    (Spinlock.new initial_value).flag = false ∧
      (Spinlock.new initial_value).data = initial_value :=
  ⟨rfl, rfl⟩

/-- Claim C10: whenever `try_lock` returns `None`, the lock state is
unchanged by the call (flag and payload both), and the flag was `true`
before the attempt. -/
theorem try_lock_none_frame {T : Type} (s : Spinlock T)
    (h : (Spinlock.try_lock s).1 = none) :
    (Spinlock.try_lock s).2.1 = s ∧ s.flag = true := by
  cases hf : s.flag with
  | false => rw [try_lock_eq s, if_pos hf] at h; simp at h
  | true => rw [try_lock_eq s, if_neg (by simp [hf])]; simp

/-- Witness for C10 at a concrete held lock. -/
theorem try_lock_none_frame_witness :
    (Spinlock.try_lock (⟨true, (7 : Nat)⟩ : Spinlock Nat)).2.1 = ⟨true, 7⟩ ∧
      (⟨true, (7 : Nat)⟩ : Spinlock Nat).flag = true :=
  try_lock_none_frame ⟨true, 7⟩ rfl
